import Mathlib

/-!
Verification of the fanling engine (fanling-engine, taipo-git-control)
against its natural-language specification.

The Rust source is shallowly embedded: each Lean definition mirrors the
Rust function named in its doc comment.  Stateful code is embedded as
explicit state passing; fallible code (Rust `Result`) returns `Except`;
a Rust panic / failed assertion is embedded as `Except.error`.
-/

namespace Fanling

/-- Embeds `type Ident = String` (fanling-engine/src/item.rs). -/
abbrev Ident := String

/-- Embeds `chrono::NaiveDateTime` as used by the engine: a point in time
with whole seconds and a nanosecond part, ordered lexicographically.
`NaiveDateTime::from_timestamp(0, 0)` is the epoch sentinel `⟨0, 0⟩`. -/
structure NaiveDateTime where
  secs : Int
  nanos : Nat
deriving DecidableEq, Repr

/-- Embeds `NaiveDateTime::from_timestamp(0, 0)`, the epoch sentinel used
for "unset" dates throughout task.rs. -/
def NaiveDateTime.epoch : NaiveDateTime := ⟨0, 0⟩

/-- Lexicographic strict order on timestamps (chrono's `Ord`). -/
def NaiveDateTime.lt (a b : NaiveDateTime) : Prop :=
  a.secs < b.secs ∨ (a.secs = b.secs ∧ a.nanos < b.nanos)

instance : LT NaiveDateTime := ⟨NaiveDateTime.lt⟩

instance (a b : NaiveDateTime) : Decidable (a < b) := by
  unfold instLTNaiveDateTime NaiveDateTime.lt
  exact inferInstanceAs (Decidable (_ ∨ _))

/-- Embeds `std::cmp::min` at type `NaiveDateTime`: the second argument is
returned exactly when it is strictly smaller. -/
def NaiveDateTime.min (a b : NaiveDateTime) : NaiveDateTime :=
  if b < a then b else a

/-- Embeds `enum TaskStatus { Open, Closed }` (task.rs). -/
inductive TaskStatus where
  | Open
  | Closed
deriving DecidableEq, Repr

end Fanling

namespace Fanling

/-! ### The word-level text merge (`merge_strings`, shared.rs)

`merge_strings` (fanling-engine/src/shared.rs) delegates the diff to the
external `difference` crate (`Changeset::new(sa, sb, " ")`), whose code is
not part of this repository.  Modelled from the spec: the spec describes it
as "computing a word-level diff/patch between ours and theirs and
concatenating non-conflicting spans"; the model below computes a longest
common subsequence of the space-separated tokens, emits maximal spans of
removed (ours-only), added (theirs-only) and common tokens — removed
before added at each gap, each span's tokens re-joined with the
separator — and `merge_strings` concatenates every span in diff order
(`parts.join("")` in the source). -/

/-- A space-separated token of a text, as a list of characters. -/
abbrev Token := List Char

/-- Tokenisation used by `Changeset::new(sa, sb, " ")`: split on the
single-space separator (Rust `str::split(" ")`, which yields `[""]` for
the empty string, exactly like `List.splitOn`). -/
def tokenize (s : List Char) : List Token := s.splitOn ' '

/-- Longest common subsequence of two token lists, with a fuel argument
bounding the recursion depth (one unit of fuel is spent per step; the sum
of the lengths is always enough). -/
def lcsFuel : Nat → List Token → List Token → List Token
  | 0, _, _ => []
  | _ + 1, [], _ => []
  | _ + 1, _ :: _, [] => []
  | fuel + 1, a :: as, b :: bs =>
    if a = b then a :: lcsFuel fuel as bs
    else
      let l1 := lcsFuel fuel (a :: as) bs
      let l2 := lcsFuel fuel as (b :: bs)
      if l1.length < l2.length then l2 else l1

/-- Longest common subsequence of two token lists (the LCS computed by the
`difference` crate's dynamic program; modelled from the spec). -/
def lcs (xs ys : List Token) : List Token := lcsFuel (xs.length + ys.length) xs ys

/-- Kind of a diff span: common to both sides, only in theirs, only in
ours (the `difference` crate's `Same` / `Add` / `Rem`). -/
inductive DiffKind where
  | Same
  | Add
  | Rem
deriving DecidableEq, Repr

/-- Walk of the two token lists against their common subsequence,
producing one tagged token per position: at each common token, the
ours-only tokens before it are removed and the theirs-only tokens before
it are added (removed before added); leftovers after the last common
token are removed resp. added.  Modelled from the spec. -/
def diffToks : List Token → List Token → List Token → List (DiffKind × Token)
  | l, r, [] => l.map (fun t => (DiffKind.Rem, t)) ++ r.map (fun t => (DiffKind.Add, t))
  | l, r, c :: cs =>
    (l.takeWhile (· ≠ c)).map (fun t => (DiffKind.Rem, t))
      ++ (r.takeWhile (· ≠ c)).map (fun t => (DiffKind.Add, t))
      ++ [(DiffKind.Same, c)]
      ++ diffToks ((l.dropWhile (· ≠ c)).tail) ((r.dropWhile (· ≠ c)).tail) cs

/-- Group maximal runs of equally-tagged tokens into spans (the
`difference` crate emits one `Same`/`Add`/`Rem` per maximal run;
modelled from the spec). -/
def coalesce : List (DiffKind × Token) → List (DiffKind × List Token)
  | [] => []
  | (k, t) :: rest =>
    match coalesce rest with
    | [] => [(k, [t])]
    | (k', ts) :: more =>
      if k = k' then (k, t :: ts) :: more else (k, [t]) :: (k', ts) :: more

/-- One span of the diff, its tokens re-joined with the separator
(the `difference` crate's `Difference` values). -/
inductive Difference where
  | Same (s : List Char)
  | Add (s : List Char)
  | Rem (s : List Char)
deriving DecidableEq, Repr

/-- Character content of a span, regardless of its kind (the source's
`match c { Same(s) | Add(s) | Rem(s) => s.clone() }`). -/
def Difference.content : Difference → List Char
  | .Same s => s
  | .Add s => s
  | .Rem s => s

/-- The diff list of `Changeset::new(sa, sb, " ")` over the two texts:
spans of the token walk, each span's tokens joined by the separator.
Modelled from the spec (the `difference` crate is external). -/
def changeset (sa sb : List Char) : List Difference :=
  (coalesce (diffToks (tokenize sa) (tokenize sb) (lcs (tokenize sa) (tokenize sb)))).map
    fun kt =>
      match kt.1 with
      | .Same => Difference.Same (List.intercalate [' '] kt.2)
      | .Add => Difference.Add (List.intercalate [' '] kt.2)
      | .Rem => Difference.Rem (List.intercalate [' '] kt.2)

/-- Embeds `merge_strings` (fanling-engine/src/shared.rs lines 10–26):
take every span of the word-level diff of the two strings in diff order
and concatenate their contents (`parts.join("")`). -/
def merge_strings (sa sb : String) : String :=
  ⟨(((changeset sa.data sb.data).map Difference.content)).flatten⟩

end Fanling

namespace Fanling

/-! ### Record model: `Simple` and `Task` (simple.rs, task.rs) -/

/-- Embeds `struct Simple { name, text }` (fanling-engine/src/simple.rs). -/
structure Simple where
  name : String
  text : String
deriving DecidableEq, Repr

/-- Embeds `SimpleTypePolicy::resolve_conflict_both` (simple.rs lines
205–219) after both sides have been deserialised: the merged item is ours
with name and text each replaced by the word-level merge with theirs. -/
def SimpleTypePolicy.resolve_conflict_both (os ts : Simple) : Simple :=
  { name := merge_strings os.name ts.name
    text := merge_strings os.text ts.text }

/-- Embeds `struct Task` (task.rs lines 68–89).  An `ItemLink` is
represented by the ident it points at: in `resolve_conflict_both` both
sides come fresh from `task_from`, so every link is in the unresolved
state and link comparison is ident comparison. -/
structure Task where
  name : String
  text : String
  context : Option Ident
  status : TaskStatus
  priority : Int
  when_closed : NaiveDateTime
  project : String
  deadline : NaiveDateTime
  show_after_date : NaiveDateTime
  blockedby : List Ident
deriving DecidableEq, Repr

/-- Embeds `Task::is_open` (task.rs lines 291–296). -/
def Task.is_open (t : Task) : Bool :=
  match t.status with
  | .Open => true
  | .Closed => false

/-- Loop of `Task::is_ready` over `blockedby`: resolve each link (the
environment maps a blocker's ident to the `is_open` of the item it
resolves to, or fails as `world.get_item` can); an open blocker yields
`false`, otherwise continue; all blockers non-open yields `true`. -/
def Task.checkBlockers (resolve : Ident → Except String Bool) :
    List Ident → Except String Bool
  | [] => .ok true
  | b :: bs => do
    let isOpen ← resolve b
    if isOpen then .ok false else Task.checkBlockers resolve bs

/-- Embeds `Task::is_ready` (task.rs lines 297–327): not ready when not
open; not ready when the show-after date is set (differs from the epoch
sentinel) and is strictly after `now`; otherwise ready iff no link in
`blockedby` resolves to an open item. -/
def Task.is_ready (t : Task) (now : NaiveDateTime)
    (resolve : Ident → Except String Bool) : Except String Bool :=
  if !t.is_open then .ok false
  else if t.show_after_date ≠ NaiveDateTime.epoch ∧ now < t.show_after_date then .ok false
  else Task.checkBlockers resolve t.blockedby

/-- Loop of `TaskTypePolicy::resolve_conflict_both` over theirs'
`blockedby` (task.rs lines 668–672): append each of theirs' blockers not
already present. -/
def addBlockers (ours : List Ident) (theirs : List Ident) : List Ident :=
  theirs.foldl (fun acc t => if t ∈ acc then acc else acc ++ [t]) ours

/-- Embeds `TaskTypePolicy::resolve_conflict_both` (task.rs lines
642–674) after both sides have been deserialised by `task_from` (the
ancestor argument is unused in the source).  Ours is mutated in the
source's order: word-merge the name and text, let a closed theirs close
an open ours (adopting theirs' `when_closed`), take the minimum priority,
deadline and show-after date, and append theirs' blockers without
duplicates. -/
def TaskTypePolicy.resolve_conflict_both (ours tt : Task) : Task :=
  let ot := { ours with
    name := merge_strings ours.name tt.name
    text := merge_strings ours.text tt.text }
  let ot := if ot.status = TaskStatus.Open ∧ tt.status = TaskStatus.Closed
    then { ot with status := TaskStatus.Closed, when_closed := tt.when_closed }
    else ot
  let ot := { ot with
    priority := min ot.priority tt.priority
    deadline := NaiveDateTime.min ot.deadline tt.deadline
    show_after_date := NaiveDateTime.min ot.show_after_date tt.show_after_date }
  { ot with blockedby := addBlockers ot.blockedby tt.blockedby }

end Fanling

namespace Fanling

/-! ### Content Store bootstrap and sync (taipo-git-control/src/repo.rs) -/

/-- Embeds `enum RepoActionRequired` (repo.rs lines 30–35). -/
inductive RepoActionRequired where
  | NoAction
  | LoadAll
  | ProcessChanges
deriving DecidableEq, Repr

/-- Which bootstrap operation `new_from_options` performs on the local
path: open the existing repository, initialise an empty one, or clone
from the remote. -/
inductive BootstrapOp where
  | OpenExisting
  | InitEmpty
  | CloneRemote
deriving DecidableEq, Repr

/-- State of the configured local path as observed by `can_open_repo`:
whether it exists, whether it is a directory, and the outcome of reading
each directory entry (`false` = the entry was an `Err`). -/
structure PathState where
  pathExists : Bool
  isDir : Bool
  entries : List Bool
deriving DecidableEq, Repr

/-- Loop of `can_open_repo` over the directory entries (repo.rs lines
113–125): a bad entry returns false immediately; otherwise remember that
an entry was seen; after the loop the repository is openable iff some
entry was seen. -/
def canOpenLoop : List Bool → Bool → Bool
  | [], has_entry => has_entry
  | false :: _, _ => false
  | true :: es, _ => canOpenLoop es true

/-- Embeds `FanlingRepository::can_open_repo` (repo.rs lines 104–127):
the path must exist, be a directory, and contain at least one entry, all
of them readable. -/
def can_open_repo (p : PathState) : Bool :=
  if !p.pathExists then false
  else if !p.isDir then false
  else canOpenLoop p.entries false

/-- Embeds the branch structure of `FanlingRepository::new_from_options`
(repo.rs lines 82–94): open an existing repository and report
`ProcessChanges`; with no local repository and no remote URL, initialise
and report `NoAction`; with no local repository but a remote URL, clone
and report `LoadAll`. -/
def new_from_options (p : PathState) (url : Option String) :
    BootstrapOp × RepoActionRequired :=
  if can_open_repo p then (BootstrapOp.OpenExisting, RepoActionRequired.ProcessChanges)
  else if url.isNone then (BootstrapOp.InitEmpty, RepoActionRequired.NoAction)
  else (BootstrapOp.CloneRemote, RepoActionRequired.LoadAll)

/-- The merged index produced by `git2`'s `merge_commits`: for this model
only its conflict flag matters. -/
structure GitIndex where
  hasConflicts : Bool
deriving DecidableEq, Repr

/-- Embeds `enum MergeOutcome` (repo.rs lines 1307–1312). -/
inductive MergeOutcome where
  | AlreadyUpToDate
  | Merged (ix : GitIndex)
  | Conflict (ix : GitIndex)
deriving DecidableEq, Repr

/-- State of a `FanlingRepository` (repo.rs lines 38–61, restricted to
the fields the verified operations read or write).  Commit ids are
natural numbers; `localHead` is the commit at HEAD, `remoteHead` the
commit at FETCH_HEAD after the last fetch, `mergeIndex` the index that
`merge_commits(our, their)` produces for those two commits, and
`commitCount` counts the commits this repository object has written
(for frame reasoning). -/
structure RepoState where
  url : Option String
  write_to_server : Bool
  needs_push : Bool
  localHead : Nat
  remoteHead : Nat
  mergeIndex : GitIndex
  commitCount : Nat
deriving DecidableEq, Repr

/-- Embeds `FanlingRepository::set_needs_push` (repo.rs lines 591–603):
the flag is raised only when a remote URL is configured and writing to
the server is enabled; otherwise the state is untouched. -/
def RepoState.set_needs_push (st : RepoState) : RepoState :=
  if st.url.isSome ∧ st.write_to_server then { st with needs_push := true } else st

/-- Embeds `FanlingRepository::merge` (repo.rs lines 632–658): equal
local and fetched heads yield `AlreadyUpToDate` without merging;
otherwise `merge_commits` runs and a conflicted index yields `Conflict`,
a clean one `Merged`. -/
def RepoState.merge (st : RepoState) : MergeOutcome :=
  if st.localHead = st.remoteHead then MergeOutcome.AlreadyUpToDate
  else if st.mergeIndex.hasConflicts then MergeOutcome.Conflict st.mergeIndex
  else MergeOutcome.Merged st.mergeIndex

/-- Embeds `FanlingRepository::write_commit` (repo.rs lines 325–356) at
the state level: one more commit is written and HEAD moves to it (the
fresh commit id is derived from the commit count). -/
def RepoState.write_commit (st : RepoState) : Nat × RepoState :=
  (st.commitCount + 1,
    { st with commitCount := st.commitCount + 1, localHead := st.commitCount + 1 })

/-- Embeds `FanlingRepository::commit_merge` (repo.rs lines 722–765):
`AlreadyUpToDate` writes nothing and returns `None`; `Merged` and
`Conflict` write the index tree as a two-parent merge commit and return
its id. -/
def RepoState.commit_merge (st : RepoState) :
    MergeOutcome → Option Nat × RepoState
  | MergeOutcome.AlreadyUpToDate => (none, st)
  | MergeOutcome.Merged _ =>
    let (oid, st1) := st.write_commit
    (some oid, st1)
  | MergeOutcome.Conflict _ =>
    let (oid, st1) := st.write_commit
    (some oid, st1)

/-- Embeds `FanlingRepository::push` (repo.rs lines 808–861): with no
remote it fails (`try_get_remote` errors); a network or credential
failure propagates (`networkOk` stands for the outcome of the opaque
`remote.push` call); only after the push succeeded is `needs_push`
cleared. -/
def RepoState.push (st : RepoState) (networkOk : Bool) :
    Except String RepoState :=
  if st.url.isNone then Except.error "no remote"
  else if !networkOk then Except.error "push failed"
  else Except.ok { st with needs_push := false }

/-- Embeds `FanlingRepository::apply_changes` (repo.rs lines 988–1002):
`actually_do_changes` writes the staged changes as one commit, then
`set_needs_push` runs. -/
def RepoState.apply_changes (st : RepoState) : RepoState :=
  (st.write_commit).2.set_needs_push

/-- State of a `Store` (fanling-engine/src/store.rs lines 30–38,
restricted to the repository and the count of staged pending changes). -/
structure StoreState where
  repo : RepoState
  pendingCount : Nat
deriving DecidableEq, Repr

/-- Embeds `Store::apply_changes` (store.rs lines 90–95): the repository
applies (and commits) the pending changes, the pending list is cleared,
and `set_needs_push` runs once more. -/
def Store.apply_changes (s : StoreState) : StoreState :=
  { repo := (s.repo.apply_changes).set_needs_push, pendingCount := 0 }

/-- State of a `World` (fanling-engine/src/world.rs), restricted to its
store and the rows of the search index. -/
structure WorldState where
  store : StoreState
  searchRows : List Ident
deriving DecidableEq, Repr

/-- Embeds `World::pull` (world.rs lines 121–143) together with
`handle_merge_outcome` (lines 146–219), at the state level.  `fetch` is
the identity on this state (`remoteHead` already holds the post-fetch
head).  `AlreadyUpToDate` does nothing.  `Merged` marks needs-push and
writes the merge commit (`handle_merge_outcome` takes no action for
`Merged`).  `Conflict` marks needs-push, stages the per-type resolution
changes into the conflicted index (which calls `set_needs_push` again,
store.rs lines 334–341) and writes the merge commit. -/
def World.pull (w : WorldState) : WorldState :=
  if (w.store.repo.url).isNone then w
  else
    match w.store.repo.merge with
    | MergeOutcome.AlreadyUpToDate => w
    | MergeOutcome.Merged _ =>
      let r1 := w.store.repo.set_needs_push
      let r2 := (r1.write_commit).2
      { w with store := { w.store with repo := r2 } }
    | MergeOutcome.Conflict _ =>
      let r1 := w.store.repo.set_needs_push
      let r2 := r1.set_needs_push
      let r3 := (r2.write_commit).2
      { w with store := { w.store with repo := r3 } }

end Fanling

namespace Fanling

/-! ### Validation and the Create action (world.rs, simple.rs, task.rs) -/

/-- Embeds `enum ItemKind { Simple, Task }` (item.rs lines 751–755). -/
inductive ItemKind where
  | Simple
  | Task
deriving DecidableEq, Repr

/-- Embeds `enum ActionResponse` (world.rs lines 829–843); the
test-configuration payload of `Success` is omitted. -/
inductive ActionResponse where
  | Failure (messages : List String) (specifics : List (String × String))
  | Success
deriving DecidableEq, Repr

/-- Embeds `ActionResponse::add_error` (world.rs lines 853–874): a first
error turns `Success` into a `Failure`; later errors are appended. -/
def ActionResponse.add_error (ar : ActionResponse) (area m : String) : ActionResponse :=
  match ar with
  | .Success => .Failure [m] [(area, m)]
  | .Failure ms sp => .Failure (ms ++ [m]) (sp ++ [(area, m)])

/-- Embeds `ActionResponse::assert` (world.rs lines 876–880). -/
def ActionResponse.assert (ar : ActionResponse) (cond : Bool) (area m : String) :
    ActionResponse :=
  if !cond then ar.add_error area m else ar

/-- Embeds `ActionResponse::overall_message` (world.rs lines 903–914). -/
def ActionResponse.overall_message : ActionResponse → String
  | .Success => ""
  | .Failure ms _ => String.intercalate " " ms

/-- Embeds `ActionResponse::errors` (world.rs lines 890–901). -/
def ActionResponse.errors : ActionResponse → List (String × String)
  | .Success => []
  | .Failure _ sp => sp

/-- The response envelope (fanling-interface): an ordered list of
tag/replacement pairs. -/
structure Response where
  tags : List (String × String)
deriving DecidableEq, Repr

/-- Embeds `ActionResponse::to_response` (world.rs lines 915–926): a
response tagged with the overall message followed by each field-level
error as its own tag. -/
def ActionResponse.to_response (ar : ActionResponse) : Response :=
  { tags := ("message", ar.overall_message) :: ar.errors }

/-- Embeds `HashMap<String, String>` as a key/value list (keys unique in
every use below). -/
abbrev StrMap := List (String × String)

/-- Embeds Rust's `vals[key]` indexing on a `HashMap`: a missing key is a
panic (`Except.error`), not a recoverable lookup miss. -/
def StrMap.index (vals : StrMap) (k : String) : Except String String :=
  match vals.lookup k with
  | some v => Except.ok v
  | none => Except.error "no entry found for key"

/-- Embeds `str::parse::<i8>()`: an optionally signed decimal number in
the i8 range (the Lean reading accepts a leading `-`; the sign handling
plays no role in any claim below). -/
def parse_i8 (s : String) : Option Int :=
  match s.toInt? with
  | some n => if -128 ≤ n ∧ n ≤ 127 then some n else none
  | none => none

/-- Embeds `SimpleTypePolicy::check_valid` (simple.rs lines 220–233):
one assertion, the indexed name must be non-blank. -/
def SimpleTypePolicy.check_valid (vals : StrMap) : Except String ActionResponse := do
  let ar := ActionResponse.Success
  let name ← vals.index "name"
  pure (ar.assert (!name.isEmpty) "name-error" "Name must be non-blank.")

/-- Embeds `TaskTypePolicy::check_valid` (task.rs lines 675–705): four
assertions accumulated into one response — non-blank name, numeric
priority, parseable deadline and show-after date.  `parseDate` stands
for chrono's `datetime_from_str(_, "%F %T")`, an external collaborator. -/
def TaskTypePolicy.check_valid (parseDate : String → Option NaiveDateTime)
    (vals : StrMap) : Except String ActionResponse := do
  let ar := ActionResponse.Success
  let name ← vals.index "name"
  let ar := ar.assert (!name.isEmpty) "name-error" "Name must be non-blank."
  let pr ← vals.index "priority"
  let ar := ar.assert (parse_i8 pr).isSome "priority-error" "Priority must be numeric"
  let dl ← vals.index "deadline"
  let ar := ar.assert (parseDate dl).isSome "deadline-error" "Invalid deadline date"
  let sa ← vals.index "show_after_date"
  let ar := ar.assert (parseDate sa).isSome "show-after-date-error" "Invalid show-after date"
  pure ar

/-- Dispatch of `check_valid` through the item-type registry
(`World::check_item_valid`, world.rs lines 330–341). -/
def check_valid (kind : ItemKind) (parseDate : String → Option NaiveDateTime)
    (vals : StrMap) : Except String ActionResponse :=
  match kind with
  | ItemKind.Simple => SimpleTypePolicy.check_valid vals
  | ItemKind.Task => TaskTypePolicy.check_valid parseDate vals

/-- Embeds `World::make_item` (world.rs lines 290–323) at the state
level, keeping only its two persisted effects: `store.add_item` stages
one change and commits it (`Store::apply_changes`), and
`search.add_item` inserts one index row for the new item. -/
def World.make_item (w : WorldState) (ident : Ident) : WorldState :=
  { store := Store.apply_changes { w.store with pendingCount := w.store.pendingCount + 1 }
    searchRows := w.searchRows ++ [ident] }

/-- Embeds the `Create` branch of `World::do_world_action` (world.rs
lines 463–478): validate first; a `Failure` is returned as its response
with the world untouched; only on success is the item made and stored
(the success response, `for_edit`, is rendering-only and modelled as an
empty response). -/
def World.do_create (w : WorldState) (kind : ItemKind)
    (parseDate : String → Option NaiveDateTime) (vals : StrMap) :
    Except String (Response × WorldState) := do
  let ar ← check_valid kind parseDate vals
  match ar with
  | ActionResponse.Failure ms sp =>
    pure ((ActionResponse.Failure ms sp).to_response, w)
  | ActionResponse.Success =>
    let w1 := World.make_item w (((vals.lookup "name").getD ""))
    pure (⟨[]⟩, w1)

end Fanling

namespace Fanling

/-! ### Ident allocation (`Store::make_identifier`, store.rs) -/

/-- The character class of the `unallowed_chars` regex
`[^0-9a-zA-Z]+`, complemented: ASCII digits and letters
(`Char.isAlphanum` is exactly `[0-9a-zA-Z]`). -/
def isAlnum (c : Char) : Bool := c.isAlphanum

/-- Walk of `Regex::replace_all(name, "-")` for the pattern
`[^0-9a-zA-Z]+`: every maximal run of non-alphanumeric characters
becomes a single `-`.  The boolean records whether the previous
character belonged to such a run. -/
def collapseGo : List Char → Bool → List Char
  | [], _ => []
  | c :: cs, inRun =>
    if isAlnum c then c :: collapseGo cs false
    else if inRun then collapseGo cs true
    else '-' :: collapseGo cs true

/-- Embeds `self.unallowed_chars.replace_all(name, "-")` (store.rs line
221). -/
def collapseNonAlnum (l : List Char) : List Char := collapseGo l false

/-- Embeds `self.initial_dash.replace(&tnx, "")` (store.rs line 222):
remove one leading `-` if present. -/
def stripInitialDash (l : List Char) : List Char :=
  match l with
  | [] => []
  | c :: cs => if c = '-' then cs else c :: cs

/-- Embeds `Store::make_identifier` (store.rs lines 214–235).  A blank
prefix or name fails the entry assertions; a name whose slug collapses
to nothing, or whose slug starts with `-` or `?`, panics; otherwise the
slug (truncated to 20 characters — the source truncates at 20 bytes,
identical on the ASCII output of the slugifier) is joined with the
prefix and the incremented counter, and the new counter value is
returned alongside. -/
def Store.make_identifier (uniq_pfx name : String) (next_ident_num : Nat) :
    Except String (Ident × Nat) :=
  if uniq_pfx.isEmpty then Except.error "prefix is empty"
  else if name.isEmpty then Except.error "name is empty"
  else
    let tidy : List Char := stripInitialDash (collapseNonAlnum name.data)
    match tidy with
    | [] => Except.error "name should not resolve to empty"
    | c :: _ =>
      if c = '-' ∨ c = '?' then Except.error "bad name"
      else
        let short := if tidy.length < 20 then tidy else tidy.take 20
        let n := next_ident_num + 1
        Except.ok (String.mk short ++ "-" ++ uniq_pfx ++ toString n, n)

end Fanling

namespace Fanling

/-! ### Item links (`ItemLink`, item.rs) -/

/-- A resolved item handle (`Rc<RefCell<Item>>` in the source); the
model follows the spec's arena reading and uses an opaque numeric
handle. -/
abbrev ItemRefM := Nat

/-- Embeds `ItemWeakRef` (item.rs lines 945–948): a weak pointer that is
either still live (`some` handle) or expired (`none`, the target was
dropped). -/
structure ItemWeakRef where
  wkref : Option ItemRefM
deriving DecidableEq, Repr

/-- Embeds `ItemWeakRef::to_rcrc` (item.rs lines 949–956): upgrading an
expired weak pointer is the error "invalid weak pointer". -/
def ItemWeakRef.to_rcrc (w : ItemWeakRef) : Except String ItemRefM :=
  match w.wkref with
  | some ir => Except.ok ir
  | none => Except.error "invalid weak pointer"

/-- Embeds `enum ItemLinkData` (item.rs lines 989–992). -/
inductive ItemLinkData where
  | Unresolved (ident : Ident)
  | Resolved (w : ItemWeakRef)
deriving DecidableEq, Repr

/-- Embeds `struct ItemLink` (item.rs lines 994–997). -/
structure ItemLink where
  data : ItemLinkData
deriving DecidableEq, Repr

/-- Embeds `ItemLink::resolve_link` (item.rs lines 1013–1022).  The
source mutates the link in place; the model returns the updated link
next to the result.  `get_item` stands for `World::get_item`.  An
unresolved link is looked up and, on success, replaced by a weak
reference to the found item; a resolved link only upgrades its stored
weak reference and never consults `get_item`. -/
def ItemLink.resolve_link (l : ItemLink)
    (get_item : Ident → Except String ItemRefM) :
    Except String (ItemRefM × ItemLink) :=
  match l.data with
  | ItemLinkData.Unresolved id => do
    let ir ← get_item id
    Except.ok (ir, ⟨ItemLinkData.Resolved ⟨some ir⟩⟩)
  | ItemLinkData.Resolved w => do
    let ir ← w.to_rcrc
    Except.ok (ir, l)

end Fanling

namespace Fanling

/-! ### Theorems -/



lemma canOpenLoop_eq (es : List Bool) (has : Bool) :
    canOpenLoop es has = (es.all id && (has || !es.isEmpty)) := by
  induction es generalizing has with
  | nil => simp [canOpenLoop]
  | cons e es ih =>
    cases e with
    | false => simp [canOpenLoop]
    | true => simp [canOpenLoop, ih]

lemma can_open_repo_iff (p : PathState) :
    can_open_repo p = true ↔
      (p.pathExists = true ∧ p.isDir = true ∧ p.entries ≠ [] ∧ ∀ e ∈ p.entries, e = true) := by
  cases hex : p.pathExists <;> cases hdir : p.isDir <;>
    simp [can_open_repo, hex, hdir, canOpenLoop_eq, List.all_eq_true, List.isEmpty_iff,
      and_comm]

/-- C4: opening the content store is a three-way bootstrap branch: an
existing local repository (a non-empty readable directory) is opened and
`ProcessChanges` reported; with no local repository and a configured
remote URL the remote is cloned and `LoadAll` reported; with neither, an
empty repository is initialised and `NoAction` reported. -/
theorem new_from_options_bootstrap (p : PathState) (url : Option String) :
    (can_open_repo p = true ↔
      (p.pathExists = true ∧ p.isDir = true ∧ p.entries ≠ [] ∧ ∀ e ∈ p.entries, e = true))
    ∧ (can_open_repo p = true →
      new_from_options p url = (BootstrapOp.OpenExisting, RepoActionRequired.ProcessChanges))
    ∧ (can_open_repo p = false → ∀ u, url = some u →
      new_from_options p url = (BootstrapOp.CloneRemote, RepoActionRequired.LoadAll))
    ∧ (can_open_repo p = false → url = none →
      new_from_options p url = (BootstrapOp.InitEmpty, RepoActionRequired.NoAction)) := by
  refine ⟨can_open_repo_iff p, ?_, ?_, ?_⟩
  · intro h; simp [new_from_options, h]
  · intro h u hu; simp [new_from_options, h, hu]
  · intro h hu; simp [new_from_options, h, hu]

theorem new_from_options_bootstrap_witness :
    new_from_options ⟨true, true, [true]⟩ none
      = (BootstrapOp.OpenExisting, RepoActionRequired.ProcessChanges)
    ∧ new_from_options ⟨false, false, []⟩ (some "ssh://example/repo.git")
      = (BootstrapOp.CloneRemote, RepoActionRequired.LoadAll)
    ∧ new_from_options ⟨false, false, []⟩ none
      = (BootstrapOp.InitEmpty, RepoActionRequired.NoAction) :=
  ⟨(new_from_options_bootstrap ⟨true, true, [true]⟩ none).2.1 (by decide),
   (new_from_options_bootstrap ⟨false, false, []⟩ (some "ssh://example/repo.git")).2.2.1
     (by decide) _ rfl,
   (new_from_options_bootstrap ⟨false, false, []⟩ none).2.2.2 (by decide) rfl⟩

/-- C5: `merge` returns `AlreadyUpToDate` exactly when the local head and
the post-fetch remote head are the same commit; `commit_merge` writes no
commit for that outcome and leaves the repository untouched; and the pull
pipeline is the identity on the whole world state in that case, staging
no Content Store commits and no Index writes. -/
theorem merge_already_up_to_date_noop (st : RepoState) (w : WorldState) :
    (RepoState.merge st = MergeOutcome.AlreadyUpToDate ↔ st.localHead = st.remoteHead)
    ∧ RepoState.commit_merge st MergeOutcome.AlreadyUpToDate = (none, st)
    ∧ (w.store.repo.localHead = w.store.repo.remoteHead → World.pull w = w) := by
  refine ⟨?_, rfl, ?_⟩
  · unfold RepoState.merge
    split
    · simp [*]
    · split <;> simp [*]
  · intro h
    unfold World.pull
    split
    · rfl
    · have hm : RepoState.merge w.store.repo = MergeOutcome.AlreadyUpToDate := by
        simp [RepoState.merge, h]
      rw [hm]

theorem merge_already_up_to_date_noop_witness :
    World.pull ⟨⟨⟨some "u", true, false, 7, 7, ⟨false⟩, 3⟩, 0⟩, ["a"]⟩
      = ⟨⟨⟨some "u", true, false, 7, 7, ⟨false⟩, 3⟩, 0⟩, ["a"]⟩ :=
  (merge_already_up_to_date_noop ⟨some "u", true, false, 7, 7, ⟨false⟩, 3⟩
    ⟨⟨⟨some "u", true, false, 7, 7, ⟨false⟩, 3⟩, 0⟩, ["a"]⟩).2.2 rfl




lemma checkBlockers_all_closed (resolve : Ident → Except String Bool)
    (bs : List Ident) (h : ∀ b ∈ bs, resolve b = Except.ok false) :
    Task.checkBlockers resolve bs = Except.ok true := by
  induction bs with
  | nil => rfl
  | cons b bs ih =>
    have hb := h b (by simp)
    rw [Task.checkBlockers, hb]
    show Task.checkBlockers resolve bs = Except.ok true
    exact ih fun x hx => h x (by simp [hx])

lemma checkBlockers_open_blocker (resolve : Ident → Except String Bool)
    (bs : List Ident) (hres : ∀ b ∈ bs, ∃ v, resolve b = Except.ok v)
    (h : ∃ b ∈ bs, resolve b = Except.ok true) :
    Task.checkBlockers resolve bs = Except.ok false := by
  induction bs with
  | nil => simp at h
  | cons b bs ih =>
    obtain ⟨v, hv⟩ := hres b (by simp)
    cases v with
    | true => rw [Task.checkBlockers, hv]; rfl
    | false =>
      rw [Task.checkBlockers, hv]
      show Task.checkBlockers resolve bs = Except.ok false
      obtain ⟨x, hx, hxt⟩ := h
      rcases List.mem_cons.mp hx with rfl | hx'
      · rw [hv] at hxt; exact absurd hxt (by simp)
      · exact ih (fun y hy => hres y (by simp [hy])) ⟨x, hx', hxt⟩

/-- C1: readiness of a task is decided exactly by three exclusions — a
closed task is never ready; a task whose show-after date is set (not the
epoch sentinel) and strictly in the future is never ready; a task one of
whose blockers resolves to an open item is never ready; and an open task
with no applicable show-after exclusion, every blocker of which resolves
to a non-open item, is ready. -/
theorem task_is_ready_exclusions (t : Task) (now : NaiveDateTime)
    (resolve : Ident → Except String Bool) :
    (t.status = TaskStatus.Closed → t.is_ready now resolve = Except.ok false)
    ∧ (t.show_after_date ≠ NaiveDateTime.epoch → now < t.show_after_date →
        t.is_ready now resolve = Except.ok false)
    ∧ ((∀ b ∈ t.blockedby, ∃ v, resolve b = Except.ok v) →
       (∃ b ∈ t.blockedby, resolve b = Except.ok true) →
        t.is_ready now resolve = Except.ok false)
    ∧ (t.status = TaskStatus.Open →
       (t.show_after_date = NaiveDateTime.epoch ∨ ¬ now < t.show_after_date) →
       (∀ b ∈ t.blockedby, resolve b = Except.ok false) →
        t.is_ready now resolve = Except.ok true) := by
  refine ⟨?_, ?_, ?_, ?_⟩
  · intro h
    simp [Task.is_ready, Task.is_open, h]
  · intro h1 h2
    unfold Task.is_ready
    split
    · rfl
    · rw [if_pos ⟨h1, h2⟩]
  · intro hres hopen
    unfold Task.is_ready
    split
    · rfl
    · split
      · rfl
      · exact checkBlockers_open_blocker resolve t.blockedby hres hopen
  · intro hst hsa hbl
    have hopen : t.is_open = true := by simp [Task.is_open, hst]
    unfold Task.is_ready
    rw [hopen]
    simp only [Bool.not_true, Bool.false_eq_true, if_false]
    rw [if_neg ?hc]
    · exact checkBlockers_all_closed resolve t.blockedby hbl
    · rintro ⟨hne, hlt⟩
      rcases hsa with he | hnl
      · exact hne he
      · exact hnl hlt

theorem task_is_ready_exclusions_witness :
    Task.is_ready
      ⟨"t1", "", some "ctx", TaskStatus.Open, 10, NaiveDateTime.epoch, "",
        NaiveDateTime.epoch, NaiveDateTime.epoch, ["b1"]⟩
      ⟨100, 0⟩
      (fun i => if i = "b1" then Except.ok false else Except.error "not found")
      = Except.ok true :=
  (task_is_ready_exclusions
    ⟨"t1", "", some "ctx", TaskStatus.Open, 10, NaiveDateTime.epoch, "",
      NaiveDateTime.epoch, NaiveDateTime.epoch, ["b1"]⟩
    ⟨100, 0⟩
    (fun i => if i = "b1" then Except.ok false else Except.error "not found")).2.2.2
    rfl (Or.inl rfl) (by intro b hb; simp at hb; subst hb; rfl)




lemma mem_addBlockers (init l : List Ident) (b : Ident) :
    b ∈ addBlockers init l ↔ b ∈ init ∨ b ∈ l := by
  induction l generalizing init with
  | nil => simp [addBlockers]
  | cons t ts ih =>
    simp only [addBlockers, List.foldl_cons]
    rw [show List.foldl _ _ ts = addBlockers (if t ∈ init then init else init ++ [t]) ts from rfl,
      ih]
    by_cases h : t ∈ init
    · simp only [if_pos h, List.mem_cons]
      constructor
      · rintro (hi | hts)
        · exact Or.inl hi
        · exact Or.inr (Or.inr hts)
      · rintro (hi | rfl | hts)
        · exact Or.inl hi
        · exact Or.inl h
        · exact Or.inr hts
    · simp only [if_neg h, List.mem_append, List.mem_singleton, List.mem_cons]
      tauto

lemma nodup_addBlockers (init l : List Ident) (h : init.Nodup) :
    (addBlockers init l).Nodup := by
  induction l generalizing init with
  | nil => simpa [addBlockers]
  | cons t ts ih =>
    simp only [addBlockers, List.foldl_cons]
    rw [show List.foldl _ _ ts = addBlockers (if t ∈ init then init else init ++ [t]) ts from rfl]
    by_cases ht : t ∈ init
    · rw [if_pos ht]; exact ih init h
    · rw [if_neg ht]
      refine ih _ ?_
      simpa [List.nodup_append] using ⟨h, ht⟩

/-- C2: the three-way merge policy for tasks closes the merged task
exactly when either side is closed (adopting theirs' close time when
theirs closed an open ours), takes the minimum of the two priorities,
deadlines and show-after dates, takes the duplicate-free union of the two
blocker lists, and merges name and text with the same word-level text
merge as the Simple type's policy. -/
theorem task_resolve_conflict_both_policy (ours theirs : Task) :
    ((TaskTypePolicy.resolve_conflict_both ours theirs).status
      = (if ours.status = TaskStatus.Closed ∨ theirs.status = TaskStatus.Closed
          then TaskStatus.Closed else TaskStatus.Open))
    ∧ (ours.status = TaskStatus.Open → theirs.status = TaskStatus.Closed →
        (TaskTypePolicy.resolve_conflict_both ours theirs).when_closed = theirs.when_closed)
    ∧ (TaskTypePolicy.resolve_conflict_both ours theirs).priority
        = min ours.priority theirs.priority
    ∧ (TaskTypePolicy.resolve_conflict_both ours theirs).deadline
        = NaiveDateTime.min ours.deadline theirs.deadline
    ∧ (TaskTypePolicy.resolve_conflict_both ours theirs).show_after_date
        = NaiveDateTime.min ours.show_after_date theirs.show_after_date
    ∧ (∀ b, b ∈ (TaskTypePolicy.resolve_conflict_both ours theirs).blockedby
        ↔ b ∈ ours.blockedby ∨ b ∈ theirs.blockedby)
    ∧ (ours.blockedby.Nodup → (TaskTypePolicy.resolve_conflict_both ours theirs).blockedby.Nodup)
    ∧ (TaskTypePolicy.resolve_conflict_both ours theirs).name
        = merge_strings ours.name theirs.name
    ∧ (TaskTypePolicy.resolve_conflict_both ours theirs).text
        = merge_strings ours.text theirs.text
    ∧ Simple.mk (TaskTypePolicy.resolve_conflict_both ours theirs).name
        (TaskTypePolicy.resolve_conflict_both ours theirs).text
      = SimpleTypePolicy.resolve_conflict_both ⟨ours.name, ours.text⟩ ⟨theirs.name, theirs.text⟩ := by
  cases ho : ours.status <;> cases ht : theirs.status <;>
    simp [TaskTypePolicy.resolve_conflict_both, SimpleTypePolicy.resolve_conflict_both,
      ho, ht, mem_addBlockers] <;>
    exact fun h => nodup_addBlockers _ _ h

theorem task_resolve_conflict_both_policy_witness :
    (TaskTypePolicy.resolve_conflict_both
      ⟨"n", "t", some "c", TaskStatus.Open, 5, NaiveDateTime.epoch, "", ⟨9, 0⟩, ⟨3, 0⟩, ["x"]⟩
      ⟨"n", "t", some "c", TaskStatus.Closed, 7, ⟨50, 0⟩, "", ⟨4, 0⟩, ⟨8, 0⟩, ["x", "y"]⟩).when_closed
      = ⟨50, 0⟩
    ∧ ((TaskTypePolicy.resolve_conflict_both
      ⟨"n", "t", some "c", TaskStatus.Open, 5, NaiveDateTime.epoch, "", ⟨9, 0⟩, ⟨3, 0⟩, ["x"]⟩
      ⟨"n", "t", some "c", TaskStatus.Closed, 7, ⟨50, 0⟩, "", ⟨4, 0⟩, ⟨8, 0⟩, ["x", "y"]⟩).blockedby).Nodup :=
  ⟨(task_resolve_conflict_both_policy
      ⟨"n", "t", some "c", TaskStatus.Open, 5, NaiveDateTime.epoch, "", ⟨9, 0⟩, ⟨3, 0⟩, ["x"]⟩
      ⟨"n", "t", some "c", TaskStatus.Closed, 7, ⟨50, 0⟩, "", ⟨4, 0⟩, ⟨8, 0⟩, ["x", "y"]⟩).2.1
      rfl rfl,
   (task_resolve_conflict_both_policy
      ⟨"n", "t", some "c", TaskStatus.Open, 5, NaiveDateTime.epoch, "", ⟨9, 0⟩, ⟨3, 0⟩, ["x"]⟩
      ⟨"n", "t", some "c", TaskStatus.Closed, 7, ⟨50, 0⟩, "", ⟨4, 0⟩, ⟨8, 0⟩, ["x", "y"]⟩).2.2.2.2.2.2.1
      (by decide)⟩




lemma bindOk {ε α β : Type} (a : α) (f : α → Except ε β) :
    (Except.ok a >>= f) = f a := rfl

lemma assert_preserves_failure (ar : ActionResponse) (cond : Bool) (area m : String)
    (x : String × String)
    (h : ∃ ms sp, ar = ActionResponse.Failure ms sp ∧ x ∈ sp) :
    ∃ ms sp, ar.assert cond area m = ActionResponse.Failure ms sp ∧ x ∈ sp := by
  obtain ⟨ms, sp, rfl, hx⟩ := h
  unfold ActionResponse.assert ActionResponse.add_error
  split
  · exact ⟨_, _, rfl, List.mem_append_left _ hx⟩
  · exact ⟨ms, sp, rfl, hx⟩

lemma task_check_valid_blank_name (parseDate : String → Option NaiveDateTime)
    (vals : StrMap) (hname : vals.lookup "name" = some "")
    (hp : (vals.lookup "priority").isSome)
    (hd : (vals.lookup "deadline").isSome)
    (hs : (vals.lookup "show_after_date").isSome) :
    ∃ ms sp,
      TaskTypePolicy.check_valid parseDate vals = Except.ok (ActionResponse.Failure ms sp)
      ∧ ("name-error", "Name must be non-blank.") ∈ sp := by
  obtain ⟨pv, hpv⟩ := Option.isSome_iff_exists.mp hp
  obtain ⟨dv, hdv⟩ := Option.isSome_iff_exists.mp hd
  obtain ⟨sv, hsv⟩ := Option.isSome_iff_exists.mp hs
  have h1 : StrMap.index vals "name" = Except.ok "" := by simp [StrMap.index, hname]
  have h2 : StrMap.index vals "priority" = Except.ok pv := by simp [StrMap.index, hpv]
  have h3 : StrMap.index vals "deadline" = Except.ok dv := by simp [StrMap.index, hdv]
  have h4 : StrMap.index vals "show_after_date" = Except.ok sv := by simp [StrMap.index, hsv]
  unfold TaskTypePolicy.check_valid
  simp only [h1, h2, h3, h4, bindOk]
  have hfail : ∃ ms sp,
      ActionResponse.Success.assert (!String.isEmpty "") "name-error" "Name must be non-blank."
        = ActionResponse.Failure ms sp
      ∧ ("name-error", "Name must be non-blank.") ∈ sp := by
    exact ⟨_, _, rfl, by simp⟩
  obtain ⟨ms, sp, heq, hmem⟩ :=
    assert_preserves_failure _ (parseDate sv).isSome "show-after-date-error"
      "Invalid show-after date" _
      (assert_preserves_failure _ (parseDate dv).isSome "deadline-error"
        "Invalid deadline date" _
        (assert_preserves_failure _ (parse_i8 pv).isSome "priority-error"
          "Priority must be numeric" _ hfail))
  exact ⟨ms, sp, by rw [heq]; rfl, hmem⟩

lemma simple_check_valid_blank_name (vals : StrMap)
    (hname : vals.lookup "name" = some "") :
    ∃ ms sp,
      SimpleTypePolicy.check_valid vals = Except.ok (ActionResponse.Failure ms sp)
      ∧ ("name-error", "Name must be non-blank.") ∈ sp := by
  have h1 : StrMap.index vals "name" = Except.ok "" := by simp [StrMap.index, hname]
  unfold SimpleTypePolicy.check_valid
  simp only [h1, bindOk]
  exact ⟨_, _, rfl, by simp⟩

/-- C6: a Create action whose field map carries a blank name is rejected
by validation for every item type (for `Task`, provided the map also
carries the other fields its validation indexes — a map missing them
panics in the source instead of answering): the result is the `Failure`
response, whose tags carry the "name-error" field tag, and the world —
Content Store and Index included — is returned unchanged, the
item-creation path never being entered. -/
theorem create_blank_name_rejected (w : WorldState) (kind : ItemKind)
    (parseDate : String → Option NaiveDateTime) (vals : StrMap)
    (hname : vals.lookup "name" = some "")
    (hkeys : kind = ItemKind.Task →
      (vals.lookup "priority").isSome ∧ (vals.lookup "deadline").isSome ∧
        (vals.lookup "show_after_date").isSome) :
    ∃ ms sp,
      World.do_create w kind parseDate vals
        = Except.ok ((ActionResponse.Failure ms sp).to_response, w)
      ∧ ("name-error", "Name must be non-blank.")
          ∈ ((ActionResponse.Failure ms sp).to_response).tags := by
  cases kind with
  | Simple =>
    obtain ⟨ms, sp, heq, hmem⟩ := simple_check_valid_blank_name vals hname
    refine ⟨ms, sp, ?_, ?_⟩
    · unfold World.do_create check_valid
      simp only [heq, bindOk]
      rfl
    · simp [ActionResponse.to_response, ActionResponse.errors, hmem]
  | Task =>
    obtain ⟨hp, hd, hs⟩ := hkeys rfl
    obtain ⟨ms, sp, heq, hmem⟩ := task_check_valid_blank_name parseDate vals hname hp hd hs
    refine ⟨ms, sp, ?_, ?_⟩
    · unfold World.do_create check_valid
      simp only [heq, bindOk]
      rfl
    · simp [ActionResponse.to_response, ActionResponse.errors, hmem]

theorem create_blank_name_rejected_witness :
    ∃ ms sp,
      World.do_create ⟨⟨⟨none, false, false, 0, 0, ⟨false⟩, 0⟩, 0⟩, []⟩ ItemKind.Simple
          (fun _ => none) [("name", "")]
        = Except.ok ((ActionResponse.Failure ms sp).to_response,
            ⟨⟨⟨none, false, false, 0, 0, ⟨false⟩, 0⟩, 0⟩, []⟩)
      ∧ ("name-error", "Name must be non-blank.")
          ∈ ((ActionResponse.Failure ms sp).to_response).tags :=
  create_blank_name_rejected ⟨⟨⟨none, false, false, 0, 0, ⟨false⟩, 0⟩, 0⟩, []⟩
    ItemKind.Simple (fun _ => none) [("name", "")] rfl
    (fun h => ItemKind.noConfusion h)

/-- Counterexample to C6 as stated: for the `Task` type, the field map
`[("name", "")]` does contain a blank name, yet the Create action does
not produce a `Failure` response — `TaskTypePolicy::check_valid` indexes
the absent "priority" key and panics (an error, not a `Failure`
response), so the claim's universal statement fails on this input. -/
theorem create_blank_name_task_panics :
    World.do_create ⟨⟨⟨none, false, false, 0, 0, ⟨false⟩, 0⟩, 0⟩, []⟩ ItemKind.Task
        (fun _ => none) [("name", "")]
      = Except.error "no entry found for key" := rfl




lemma collapseGo_inRun_head (l : List Char) :
    collapseGo l true = [] ∨
      ∃ c cs, collapseGo l true = c :: cs ∧ isAlnum c = true := by
  induction l with
  | nil => exact Or.inl rfl
  | cons c cs ih =>
    by_cases h : isAlnum c
    · exact Or.inr ⟨c, collapseGo cs false, by simp [collapseGo, h], h⟩
    · simpa [collapseGo, h] using ih

lemma tidy_head_alnum (l : List Char) :
    stripInitialDash (collapseNonAlnum l) = [] ∨
      ∃ c cs, stripInitialDash (collapseNonAlnum l) = c :: cs ∧ isAlnum c = true := by
  cases l with
  | nil => exact Or.inl rfl
  | cons c cs =>
    by_cases h : isAlnum c
    · refine Or.inr ⟨c, collapseGo cs false, ?_, h⟩
      have hc : c ≠ '-' := by
        intro he; rw [he] at h; exact absurd h (by decide)
      simp [collapseNonAlnum, collapseGo, h, stripInitialDash, hc]
    · have h2 : collapseNonAlnum (c :: cs) = '-' :: collapseGo cs true := by
        simp [collapseNonAlnum, collapseGo, h]
      rw [h2]
      simpa [stripInitialDash] using collapseGo_inRun_head cs

lemma alnum_mem_collapseGo (l : List Char) (b : Bool) (c : Char)
    (hc : c ∈ l) (ha : isAlnum c = true) : c ∈ collapseGo l b := by
  induction l generalizing b with
  | nil => simp at hc
  | cons a cs ih =>
    rcases List.mem_cons.mp hc with rfl | hc'
    · simp [collapseGo, ha]
    · by_cases h : isAlnum a
      · simp [collapseGo, h]
        exact Or.inr (ih false hc')
      · cases b with
        | true => simpa [collapseGo, h] using ih true hc'
        | false =>
          simp [collapseGo, h]
          exact Or.inr (ih true hc')

lemma tidy_ne_nil (l : List Char) (c : Char) (hc : c ∈ l) (ha : isAlnum c = true) :
    stripInitialDash (collapseNonAlnum l) ≠ [] := by
  intro hnil
  have hmem : c ∈ collapseNonAlnum l := alnum_mem_collapseGo l false c hc ha
  have hdash : c ≠ '-' := by
    intro he; rw [he] at ha; exact absurd ha (by decide)
  cases he : collapseNonAlnum l with
  | nil => rw [he] at hmem; simp at hmem
  | cons x xs =>
    rw [he] at hnil hmem
    by_cases hx : x = '-'
    · simp [stripInitialDash, hx] at hnil
      subst hnil
      rcases List.mem_cons.mp hmem with rfl | h0
      · exact hdash hx
      · simp at h0
    · simp [stripInitialDash, hx] at hnil




lemma data_ne_nil_isEmpty_false (s : String) (h : s.data ≠ []) : s.isEmpty = false := by
  rw [Bool.eq_false_iff]
  intro he
  apply h
  have h2 : s = "" := (String.isEmpty_iff s).mp he
  rw [h2]

/-- C7 (amended): for every prefix that is non-blank and every basis
string containing at least one alphanumeric character, `make_identifier`
returns the slug (non-alphanumeric runs collapsed to `-`, a leading `-`
stripped, truncated to 20 characters) joined by `-` to the prefix
followed by the incremented counter, and the counter advances by exactly
one.  (A blank basis or prefix fails the entry assertions; a non-blank
basis with no alphanumeric character — excluded here — panics in the
source rather than returning.) -/
theorem make_identifier_spec (uniq_pfx name : String) (n : Nat)
    (hpfx : uniq_pfx ≠ "")
    (hname : ∃ c ∈ name.data, isAlnum c = true) :
    Store.make_identifier uniq_pfx name n
      = Except.ok
          ((String.mk
              (if (stripInitialDash (collapseNonAlnum name.data)).length < 20
                then stripInitialDash (collapseNonAlnum name.data)
                else (stripInitialDash (collapseNonAlnum name.data)).take 20))
            ++ "-" ++ uniq_pfx ++ toString (n + 1), n + 1) := by
  obtain ⟨c, hc, ha⟩ := hname
  have hpfx2 : uniq_pfx.isEmpty = false := by
    rw [Bool.eq_false_iff]
    intro he
    exact hpfx ((String.isEmpty_iff uniq_pfx).mp he)
  have hnm : name.isEmpty = false :=
    data_ne_nil_isEmpty_false name (fun hn => by rw [hn] at hc; simp at hc)
  unfold Store.make_identifier
  rw [hpfx2, hnm]
  simp only [Bool.false_eq_true, if_false]
  have hne := tidy_ne_nil name.data c hc ha
  rcases tidy_head_alnum name.data with hnil | ⟨x, xs, hx, hax⟩
  · exact absurd hnil hne
  · rw [hx]
    have hxd : ¬(x = '-' ∨ x = '?') := by
      rintro (rfl | rfl) <;> exact absurd hax (by decide)
    simp [hxd]

theorem make_identifier_spec_witness :
    Store.make_identifier "a" "aaa" 0 = Except.ok ("aaa-a1", 1) := by
  have h := make_identifier_spec "a" "aaa" 0 (by decide)
    ⟨'a', by decide, by decide⟩
  simpa using h

/-- Counterexample to C7 as stated: the basis string `"???"` is
non-blank, yet `make_identifier` does not return a slug-prefix-counter
ident — the slug collapses to nothing and the source panics ("name
should not resolve to empty"). -/
theorem make_identifier_all_symbols_panics :
    Store.make_identifier "a" "???" 5 = Except.error "name should not resolve to empty" := rfl




/-- C3: for two divergent edits of an item's text from a common
ancestor, ours `"cccc"` and theirs `"bbbb"`, the type policy's conflict
resolution merges the text to `"ccccbbbb"`: the word-level diff consists
of the removed span `"cccc"` followed by the added span `"bbbb"`, and the
merge concatenates every span in diff order. -/
theorem simple_conflict_text_merge (os ts : Simple)
    (ho : os.text = "cccc") (ht : ts.text = "bbbb") :
    (SimpleTypePolicy.resolve_conflict_both os ts).text = "ccccbbbb"
    ∧ changeset os.text.data ts.text.data
        = [Difference.Rem "cccc".data, Difference.Add "bbbb".data] := by
  rw [ho, ht]
  constructor
  · simp [SimpleTypePolicy.resolve_conflict_both, ho, ht]
    decide
  · decide

theorem simple_conflict_text_merge_witness :
    (SimpleTypePolicy.resolve_conflict_both ⟨"a", "cccc"⟩ ⟨"b", "bbbb"⟩).text = "ccccbbbb" :=
  (simple_conflict_text_merge ⟨"a", "cccc"⟩ ⟨"b", "bbbb"⟩ rfl rfl).1

lemma lcsFuel_self (fuel : Nat) (t : List Token) (h : t.length ≤ fuel) :
    lcsFuel fuel t t = t := by
  induction fuel generalizing t with
  | zero =>
    rw [Nat.le_zero, List.length_eq_zero] at h
    subst h
    rfl
  | succ fuel ih =>
    cases t with
    | nil => rfl
    | cons a as =>
      have h2 : as.length ≤ fuel := by simpa using h
      simp [lcsFuel, ih as h2]

lemma lcs_self (t : List Token) : lcs t t = t :=
  lcsFuel_self _ t (by simp [Nat.le_add_right])

lemma diffToks_self (t : List Token) :
    diffToks t t t = t.map fun c => (DiffKind.Same, c) := by
  induction t with
  | nil => rfl
  | cons c cs ih =>
    simp [diffToks, ih]

lemma coalesce_map_same (t : List Token) (h : t ≠ []) :
    coalesce (t.map fun x => (DiffKind.Same, x)) = [(DiffKind.Same, t)] := by
  induction t with
  | nil => exact absurd rfl h
  | cons c cs ih =>
    by_cases hcs : cs = []
    · subst hcs; rfl
    · simp only [List.map_cons, coalesce, ih hcs]
      rfl

lemma tokenize_ne_nil (s : List Char) : tokenize s ≠ [] := by
  unfold tokenize List.splitOn
  exact List.splitOnP_ne_nil _ s

/-- C10: the word-level text merge of two identical strings is the
string itself — the diff consists of a single common span, so conflict
resolution does not duplicate a name or text on which both sides agree. -/
theorem merge_strings_idempotent (s : String) : merge_strings s s = s := by
  unfold merge_strings changeset
  rw [lcs_self, diffToks_self, coalesce_map_same _ (tokenize_ne_nil s.data)]
  simp only [List.map_cons, List.map_nil, Difference.content, List.flatten_cons,
    List.flatten_nil, List.append_nil]
  rw [tokenize, List.intercalate_splitOn]




/-- C8: the needs-push flag is raised by a local commit (a direct write
through `Store::apply_changes` or marking a merge in the pull pipeline)
exactly when a remote URL is configured and write-to-server is enabled —
otherwise those operations leave it untouched — and a successful push
clears it. -/
theorem needs_push_flag_policy (s : StoreState) (w : WorldState)
    (st st' : RepoState) (ok : Bool) :
    ((Store.apply_changes s).repo.needs_push
      = ((s.repo.url.isSome && s.repo.write_to_server) || s.repo.needs_push))
    ∧ (RepoState.merge w.store.repo ≠ MergeOutcome.AlreadyUpToDate →
      (World.pull w).store.repo.needs_push
        = ((w.store.repo.url.isSome && w.store.repo.write_to_server)
            || w.store.repo.needs_push))
    ∧ (RepoState.push st ok = Except.ok st' → st'.needs_push = false) := by
  refine ⟨?_, ?_, ?_⟩
  · by_cases h : s.repo.url.isSome ∧ s.repo.write_to_server
    · simp [Store.apply_changes, RepoState.apply_changes, RepoState.set_needs_push,
        RepoState.write_commit, h, h.1, h.2]
    · simp [Store.apply_changes, RepoState.apply_changes, RepoState.set_needs_push,
        RepoState.write_commit, h]
  · intro hm
    unfold World.pull
    by_cases hu : (w.store.repo.url).isNone
    · have : w.store.repo.url.isSome = false := by
        cases h : w.store.repo.url <;> simp_all
      simp [hu, this]
    · by_cases h : w.store.repo.url.isSome ∧ w.store.repo.write_to_server
      · cases hc : RepoState.merge w.store.repo with
        | AlreadyUpToDate => exact absurd hc hm
        | Merged ix =>
          simp [hu, hc, RepoState.set_needs_push, RepoState.write_commit, h, h.1, h.2]
        | Conflict ix =>
          simp [hu, hc, RepoState.set_needs_push, RepoState.write_commit, h, h.1, h.2]
      · cases hc : RepoState.merge w.store.repo with
        | AlreadyUpToDate => exact absurd hc hm
        | Merged ix =>
          simp [hu, hc, RepoState.set_needs_push, RepoState.write_commit, h]
        | Conflict ix =>
          simp [hu, hc, RepoState.set_needs_push, RepoState.write_commit, h]
  · intro hp
    unfold RepoState.push at hp
    by_cases h1 : st.url.isNone
    · simp [h1] at hp
    · by_cases h2 : ok
      · simp [h1, h2] at hp
        rw [← hp]
      · simp [h1, h2] at hp

theorem needs_push_flag_policy_witness :
    (Store.apply_changes ⟨⟨some "u", true, false, 4, 9, ⟨false⟩, 2⟩, 1⟩).repo.needs_push = true
    ∧ (World.pull ⟨⟨⟨some "u", true, false, 4, 9, ⟨false⟩, 2⟩, 0⟩, []⟩).store.repo.needs_push
        = true
    ∧ ∀ st', RepoState.push ⟨some "u", true, true, 4, 9, ⟨false⟩, 2⟩ true = Except.ok st' →
        st'.needs_push = false := by
  refine ⟨?_, ?_, ?_⟩
  · have h := (needs_push_flag_policy ⟨⟨some "u", true, false, 4, 9, ⟨false⟩, 2⟩, 1⟩
      ⟨⟨⟨some "u", true, false, 4, 9, ⟨false⟩, 2⟩, 0⟩, []⟩
      ⟨some "u", true, true, 4, 9, ⟨false⟩, 2⟩ ⟨some "u", true, false, 4, 9, ⟨false⟩, 2⟩
      true).1
    simpa using h
  · have h := (needs_push_flag_policy ⟨⟨some "u", true, false, 4, 9, ⟨false⟩, 2⟩, 1⟩
      ⟨⟨⟨some "u", true, false, 4, 9, ⟨false⟩, 2⟩, 0⟩, []⟩
      ⟨some "u", true, true, 4, 9, ⟨false⟩, 2⟩ ⟨some "u", true, false, 4, 9, ⟨false⟩, 2⟩
      true).2.1 (by decide)
    simpa using h
  · intro st' hp
    exact (needs_push_flag_policy ⟨⟨some "u", true, false, 4, 9, ⟨false⟩, 2⟩, 1⟩
      ⟨⟨⟨some "u", true, false, 4, 9, ⟨false⟩, 2⟩, 0⟩, []⟩
      ⟨some "u", true, true, 4, 9, ⟨false⟩, 2⟩ st' true).2.2 hp

/-- C9: link resolution is memoised: a first successful resolution
replaces the unresolved state by a stored weak reference and returns the
item; resolution of an already-resolved link never consults the item
lookup again (its result is the same under every lookup environment); a
live stored weak reference is returned as is, and an expired one fails
with the "invalid weak pointer" error instead of re-fetching. -/
theorem resolve_link_memoized (id : Ident) (ir : ItemRefM)
    (get get' : Ident → Except String ItemRefM) (w : ItemWeakRef) :
    (get id = Except.ok ir →
      ItemLink.resolve_link ⟨ItemLinkData.Unresolved id⟩ get
        = Except.ok (ir, ⟨ItemLinkData.Resolved ⟨some ir⟩⟩))
    ∧ (ItemLink.resolve_link ⟨ItemLinkData.Resolved w⟩ get
        = ItemLink.resolve_link ⟨ItemLinkData.Resolved w⟩ get')
    ∧ (ItemLink.resolve_link ⟨ItemLinkData.Resolved ⟨some ir⟩⟩ get
        = Except.ok (ir, ⟨ItemLinkData.Resolved ⟨some ir⟩⟩))
    ∧ (ItemLink.resolve_link ⟨ItemLinkData.Resolved ⟨none⟩⟩ get
        = Except.error "invalid weak pointer") := by
  refine ⟨?_, rfl, rfl, rfl⟩
  intro h
  show Except.bind (get id) _ = _
  rw [h]
  rfl

theorem resolve_link_memoized_witness :
    ItemLink.resolve_link ⟨ItemLinkData.Unresolved "ctx"⟩
        (fun i => if i = "ctx" then Except.ok 5 else Except.error "not found")
      = Except.ok (5, ⟨ItemLinkData.Resolved ⟨some 5⟩⟩) :=
  (resolve_link_memoized "ctx" 5
    (fun i => if i = "ctx" then Except.ok 5 else Except.error "not found")
    (fun _ => Except.error "not found") ⟨none⟩).1 rfl


end Fanling
